import Mathlib

/-!
Verification development for the terminaLLM repository.

The repository simulates a macOS terminal in the browser: a language model
produces structured replies that a parser splits into an output block and an
action block, and a reconciler applies the actions to a local filesystem
mirror.  The definitions below are a shallow embedding of the TypeScript
sources:

  * `jsSplit`, `jsTrim`, `jsStartsWith` model the JavaScript string
    primitives `String.prototype.split` (with a plain-string separator),
    `trim` and `startsWith` used by the code;
  * `parseJson` models `JSON.parse` (returning `none` on a syntax error),
    and `JsValue` models the parsed JavaScript value;
  * `system.resolvePath` / `system.getNodeAtPath` embed
    `src/utils/system.ts`, `FileSystem.*` embeds `src/lib/filesystem.ts`;
  * `processCommand` embeds the post-oracle part of `processCommand` in
    `src/utils/terminal.ts` (the oracle call itself is external: the raw
    reply text is taken as an argument); the filesystem interface of its
    `SessionContext` is passed in as a record of functions `FSOps` exactly
    as the TypeScript receives it;
  * `llm.parseReply` embeds the reply parsing of `sendCommandToLLM` in
    `src/utils/llm.ts` (the `---directory---` grammar variant);
  * `terminalStore.addHistory` embeds the bounded transcript of
    `src/utils/terminal.ts`, `useTerminalStore.addToHistory` the display
    history of `src/store/terminalStore.ts`, and `handleApiKeySubmission`
    the credential handling of `src/components/Terminal.tsx`.
-/

/-! ### JavaScript string primitives -/

/-- Whitespace recognised by `trim` (the ASCII part, which is all the
repository ever produces). -/
def isWsChar (c : Char) : Bool :=
  c = ' ' || c = '\t' || c = '\n' || c = '\r' || c.toNat = 11 || c.toNat = 12

/-- Model of `String.prototype.trim`. -/
def jsTrim (s : String) : String :=
  String.mk (((s.toList.dropWhile isWsChar).reverse.dropWhile isWsChar).reverse)

/-- If `sep` is a prefix of `cs`, return the remainder. -/
def takeSep : List Char → List Char → Option (List Char)
  | [], cs => some cs
  | _ :: _, [] => none
  | s :: ss, c :: cs => if c = s then takeSep ss cs else none

/-- Worker for `jsSplit`: leftmost, non-overlapping occurrences of `sep`,
with fuel so that the recursion is structural. -/
def splitAux (sep : List Char) : Nat → List Char → List Char → List (List Char)
  | 0, cs, acc => [acc.reverse ++ cs]
  | Nat.succ f, cs, acc =>
    match takeSep sep cs with
    | some rest => acc.reverse :: splitAux sep f rest []
    | none =>
      match cs with
      | [] => [acc.reverse]
      | c :: cs2 => splitAux sep f cs2 (c :: acc)

/-- Model of `String.prototype.split` with a non-empty plain-string
separator. -/
def jsSplit (s sep : String) : List String :=
  (splitAux sep.toList (s.toList.length + 1) s.toList []).map String.mk

/-- Model of `String.prototype.startsWith`. -/
def jsStartsWith (s pre : String) : Bool :=
  (takeSep pre.toList s.toList).isSome

/-- Model of `path.split('/').filter(Boolean)`, the path-to-segments
conversion used throughout the sources. -/
def splitPath (s : String) : List String :=
  (jsSplit s "/").filter (fun t => t ≠ "")

/-! ### JSON values and `JSON.parse` -/

/-- A parsed JavaScript value, as produced by `JSON.parse`.  Numbers keep
their source lexeme: no code in the repository ever uses a numeric value
arithmetically, only truthiness. -/
inductive JsValue where
  | jnull
  | jbool (b : Bool)
  | jnum (lexeme : String)
  | jstr (s : String)
  | jarr (elems : List JsValue)
  | jobj (fields : List (String × JsValue))

/-- JSON whitespace. -/
def isJsonWs (c : Char) : Bool :=
  c = ' ' || c = '\t' || c = '\n' || c = '\r'

/-- Drop leading JSON whitespace. -/
def skipWs : List Char → List Char
  | [] => []
  | c :: cs => if isJsonWs c then skipWs cs else c :: cs

/-- Value of a hexadecimal digit. -/
def hexVal (c : Char) : Option Nat :=
  if '0' ≤ c ∧ c ≤ '9' then some (c.toNat - '0'.toNat)
  else if 'a' ≤ c ∧ c ≤ 'f' then some (c.toNat - 'a'.toNat + 10)
  else if 'A' ≤ c ∧ c ≤ 'F' then some (c.toNat - 'A'.toNat + 10)
  else none

/-- Parse the body of a JSON string literal (the opening quote already
consumed); returns the decoded characters and the input after the closing
quote. -/
def parseStringChars : List Char → Option (List Char × List Char)
  | [] => none
  | c :: cs =>
    if c = '"' then some ([], cs)
    else if c = '\\' then
      match cs with
      | [] => none
      | e :: cs2 =>
        if e = 'u' then
          match cs2 with
          | h1 :: h2 :: h3 :: h4 :: cs3 =>
            match hexVal h1, hexVal h2, hexVal h3, hexVal h4 with
            | some v1, some v2, some v3, some v4 =>
              (parseStringChars cs3).map (fun r =>
                (Char.ofNat (4096 * v1 + 256 * v2 + 16 * v3 + v4) :: r.1, r.2))
            | _, _, _, _ => none
          | _ => none
        else
          match
            (if e = '"' then some '"'
             else if e = '\\' then some '\\'
             else if e = '/' then some '/'
             else if e = 'b' then some (Char.ofNat 8)
             else if e = 'f' then some (Char.ofNat 12)
             else if e = 'n' then some '\n'
             else if e = 'r' then some '\r'
             else if e = 't' then some '\t'
             else none) with
          | some d => (parseStringChars cs2).map (fun r => (d :: r.1, r.2))
          | none => none
    else if c.toNat < 32 then none
    else (parseStringChars cs).map (fun r => (c :: r.1, r.2))

/-- Longest digit prefix. -/
def takeDigits : List Char → List Char × List Char
  | [] => ([], [])
  | c :: cs =>
    if c.isDigit then
      match takeDigits cs with
      | (d, r) => (c :: d, r)
    else ([], c :: cs)

/-- Lex a JSON number starting at the head of the input; returns its lexeme
and the rest. -/
def lexNumber (cs : List Char) : Option (String × List Char) :=
  let (neg, cs1) :=
    match cs with
    | '-' :: r => (['-'], r)
    | _ => (([] : List Char), cs)
  match cs1 with
  | [] => none
  | c :: r =>
    if c = '0' then
      lexFracExp (neg ++ ['0']) r
    else if c.isDigit then
      match takeDigits r with
      | (d, r2) => lexFracExp (neg ++ (c :: d)) r2
    else none
where
  lexFracExp (intPart : List Char) (cs : List Char) : Option (String × List Char) :=
    let (fracPart, cs2) :=
      match cs with
      | '.' :: r =>
        match takeDigits r with
        | ([], _) => ([], '.' :: r)
        | (d, r2) => ('.' :: d, r2)
      | _ => (([] : List Char), cs)
    if fracPart = [] ∧ cs ≠ cs2 then none
    else
      match cs2 with
      | 'e' :: r | 'E' :: r =>
        let (sgn, r2) :=
          match r with
          | '+' :: rr => (['+'], rr)
          | '-' :: rr => (['-'], rr)
          | _ => (([] : List Char), r)
        match takeDigits r2 with
        | ([], _) => some (String.mk (intPart ++ fracPart), cs2)
        | (d, r3) =>
          some (String.mk (intPart ++ fracPart ++ ('e' :: sgn) ++ d), r3)
      | _ => some (String.mk (intPart ++ fracPart), cs2)

/-- Whether a JSON number lexeme denotes zero (all mantissa digits are 0):
this is what decides its JavaScript truthiness. -/
def jsonNumIsZero (lexeme : String) : Bool :=
  ((lexeme.toList.takeWhile (fun c => c ≠ 'e' ∧ c ≠ 'E')).filter
    (fun c => c.isDigit)).all (fun c => c = '0')

/-- A partially built container during JSON parsing. -/
inductive JFrame where
  | arr (done : List JsValue)
  | obj (done : List (String × JsValue)) (key : String)

/-- The `JSON.parse` machine: a stack of open containers, an optional just
completed value, and the remaining input.  Fuel keeps the recursion
structural; every step consumes input, so the fuel in `parseJson` never
runs out. -/
def parseRun : Nat → List JFrame → Option JsValue → List Char → Option JsValue
  | 0, _, _, _ => none
  | Nat.succ fuel, stack, none, cs =>
    match skipWs cs with
    | 'n' :: 'u' :: 'l' :: 'l' :: rest => parseRun fuel stack (some JsValue.jnull) rest
    | 't' :: 'r' :: 'u' :: 'e' :: rest => parseRun fuel stack (some (JsValue.jbool true)) rest
    | 'f' :: 'a' :: 'l' :: 's' :: 'e' :: rest => parseRun fuel stack (some (JsValue.jbool false)) rest
    | '"' :: rest =>
      match parseStringChars rest with
      | some (content, rest2) => parseRun fuel stack (some (JsValue.jstr (String.mk content))) rest2
      | none => none
    | '[' :: rest =>
      match skipWs rest with
      | ']' :: rest2 => parseRun fuel stack (some (JsValue.jarr [])) rest2
      | _ => parseRun fuel (JFrame.arr [] :: stack) none rest
    | '{' :: rest =>
      match skipWs rest with
      | '}' :: rest2 => parseRun fuel stack (some (JsValue.jobj [])) rest2
      | '"' :: rest2 =>
        match parseStringChars rest2 with
        | some (key, rest3) =>
          match skipWs rest3 with
          | ':' :: rest4 => parseRun fuel (JFrame.obj [] (String.mk key) :: stack) none rest4
          | _ => none
        | none => none
      | _ => none
    | c :: rest2 =>
      if c = '-' || c.isDigit then
        match lexNumber (c :: rest2) with
        | some (lex, rest3) => parseRun fuel stack (some (JsValue.jnum lex)) rest3
        | none => none
      else none
    | [] => none
  | Nat.succ fuel, stack, some v, cs =>
    match stack with
    | [] =>
      match skipWs cs with
      | [] => some v
      | _ => none
    | JFrame.arr done :: s =>
      match skipWs cs with
      | ',' :: rest => parseRun fuel (JFrame.arr (done ++ [v]) :: s) none rest
      | ']' :: rest => parseRun fuel s (some (JsValue.jarr (done ++ [v]))) rest
      | _ => none
    | JFrame.obj done key :: s =>
      match skipWs cs with
      | ',' :: rest =>
        match skipWs rest with
        | '"' :: rest2 =>
          match parseStringChars rest2 with
          | some (key2, rest3) =>
            match skipWs rest3 with
            | ':' :: rest4 =>
              parseRun fuel (JFrame.obj (done ++ [(key, v)]) (String.mk key2) :: s) none rest4
            | _ => none
          | none => none
        | _ => none
      | '}' :: rest => parseRun fuel s (some (JsValue.jobj (done ++ [(key, v)]))) rest
      | _ => none

/-- Model of `JSON.parse`: `none` is a thrown `SyntaxError`. -/
def parseJson (s : String) : Option JsValue :=
  parseRun (4 * s.toList.length + 8) [] none s.toList

/-! ### JavaScript value accessors -/

/-- Last-wins lookup in an object's field list (`JSON.parse` keeps the last
of duplicate keys). -/
def jsObjGet : List (String × JsValue) → String → Option JsValue
  | [], _ => none
  | (k, v) :: rest, key =>
    match jsObjGet rest key with
    | some r => some r
    | none => if k = key then some v else none

/-- Model of JavaScript property access `v.key`: `none` is `undefined`.
Property access on a primitive or an array yields `undefined`; access on
`null` throws and is handled at the call sites. -/
def jsGet (v : JsValue) (key : String) : Option JsValue :=
  match v with
  | JsValue.jobj fields => jsObjGet fields key
  | _ => none

/-- JavaScript truthiness of a possibly-`undefined` value. -/
def truthy : Option JsValue → Bool
  | none => false
  | some JsValue.jnull => false
  | some (JsValue.jbool b) => b
  | some (JsValue.jnum lex) => !(jsonNumIsZero lex)
  | some (JsValue.jstr s) => !(s == "")
  | some (JsValue.jarr _) => true
  | some (JsValue.jobj _) => true

/-- Model of `typeof v === 'string'`. -/
def isStr : Option JsValue → Bool
  | some (JsValue.jstr _) => true
  | _ => false

/-- Model of `Array.isArray(v)`. -/
def isArr : Option JsValue → Bool
  | some (JsValue.jarr _) => true
  | _ => false

/-- Whether `file.type` passes the check `file.type === 'file' ||
file.type === 'directory'`. -/
def typeIsFileOrDir : Option JsValue → Bool
  | some (JsValue.jstr t) => t == "file" || t == "directory"
  | _ => false

/-- Model of `file.content || ''` as the string handed to `createFile`
(the interface types `content` as a string; a non-string truthy value
would be passed through unchanged by JavaScript, but no embedded operation
ever inspects it). -/
def contentStr : Option JsValue → String
  | some (JsValue.jstr s) => s
  | _ => ""

/-- Whether a value is `null` (property access on it throws a
`TypeError`). -/
def isNull : JsValue → Bool
  | JsValue.jnull => true
  | _ => false

/-- Model of `typeof v === 'string'` on a value that is certainly
defined (the `deleteFiles` loop's check). -/
def isStrV : JsValue → Bool
  | JsValue.jstr _ => true
  | _ => false

/-! ### Filesystem node model (src/types.ts `FileSystemNode`) -/

/-- The `type` field of a `FileSystemNode`. -/
inductive FSNodeType where
  | file
  | directory
  | symlink
deriving DecidableEq

/-- A `FileSystemNode`: `content` is either text or a name-to-node mapping,
and `children` is the separate optional mapping that
`FileSystem.getNodeAtPath` in `src/lib/filesystem.ts` walks.  The
`metadata` and `permissions` fields of the source type are never read by
any embedded operation and are omitted. -/
inductive FSNode where
  | mk (type : FSNodeType) (name : String)
       (content : String ⊕ List (String × FSNode))
       (children : Option (List (String × FSNode)))

/-- The `type` field. -/
def FSNode.type : FSNode → FSNodeType
  | FSNode.mk t _ _ _ => t

/-- The `name` field. -/
def FSNode.name : FSNode → String
  | FSNode.mk _ n _ _ => n

/-- The `content` field. -/
def FSNode.content : FSNode → String ⊕ List (String × FSNode)
  | FSNode.mk _ _ c _ => c

/-- The `children` field. -/
def FSNode.children : FSNode → Option (List (String × FSNode))
  | FSNode.mk _ _ _ ch => ch

/-- Lookup of `mapping[name]` in a name-to-node mapping (object keys are
unique, so first match suffices). -/
def lookupEntry : List (String × FSNode) → String → Option FSNode
  | [], _ => none
  | (k, v) :: rest, key => if k = key then some v else lookupEntry rest key

/-! ### src/utils/system.ts -/

namespace system

/-- `resolvePath(currentPath, targetPath)` from src/utils/system.ts. -/
def resolvePath (currentPath : List String) (targetPath : String) : List String :=
  if jsStartsWith targetPath "/" then
    (jsSplit targetPath "/").filter (fun t => t ≠ "")
  else if targetPath = "." ∨ targetPath = "" then currentPath
  else if targetPath = ".." then currentPath.dropLast
  else if targetPath = "~" then ["home", "user"]
  else if jsStartsWith targetPath "~/" then
    ["home", "user"] ++ (jsSplit (targetPath.drop 2) "/").filter (fun t => t ≠ "")
  else
    ((jsSplit targetPath "/").filter (fun t => t ≠ "")).foldl
      (fun acc part =>
        if part = ".." then acc.dropLast
        else if part = "." then acc
        else acc ++ [part])
      currentPath

/-- `getNodeAtPath(root, path)` from src/utils/system.ts: walks `content`
mappings, requiring each intermediate node to be a directory with
non-string content. -/
def getNodeAtPath (root : FSNode) : List String → Option FSNode
  | [] => some root
  | seg :: rest =>
    match root.type, root.content with
    | FSNodeType.directory, Sum.inr entries =>
      match lookupEntry entries seg with
      | some child => getNodeAtPath child rest
      | none => none
    | _, _ => none

end system

/-! ### src/lib/filesystem.ts -/

namespace FileSystem

/-- `FileSystem.resolvePath` from src/lib/filesystem.ts, as a function of
the instance's `currentDirectory`. -/
def resolvePath (currentDirectory : List String) (path : String) : List String :=
  if path = "" then currentDirectory
  else
    let parts := (jsSplit path "/").filter (fun t => t ≠ "")
    let start := if jsStartsWith path "/" then [] else currentDirectory
    parts.foldl
      (fun result part =>
        if part = "." then result
        else if part = ".." then result.dropLast
        else result ++ [part])
      start

/-- `FileSystem.getNodeAtPath` from src/lib/filesystem.ts on an
already-resolved segment array: walks the `children` mappings (not
`content`), returning `null` when `children` is absent or lacks the
segment. -/
def getNodeAtPathList (root : FSNode) : List String → Option FSNode
  | [] => some root
  | seg :: rest =>
    match root.children with
    | none => none
    | some cs =>
      match lookupEntry cs seg with
      | some child => getNodeAtPathList child rest
      | none => none

/-- `FileSystem.createNode` from src/lib/filesystem.ts.  Its entire body is
a `console.log`; it performs no mutation, which is why `makeDirectory`
below cannot change the tree. -/
def createNode (_path : List String) (_type : String) : Unit := ()

/-- `FileSystem.makeDirectory` from src/lib/filesystem.ts: walks the
segments, rejects `.` and `..`, throws when an intermediate existing node
is not a directory, and calls the no-op `createNode` for missing nodes.
The method returns `void` and its only write path is `createNode`, so the
tree is never modified; the embedding therefore returns no new state. -/
def makeDirectory (root : FSNode) (currentDirectory : List String) (path : String) :
    Except String Unit :=
  let parts := (jsSplit path "/").filter (fun t => t ≠ "")
  let start := if jsStartsWith path "/" then [] else currentDirectory
  go parts start
where
  go : List String → List String → Except String Unit
    | [], _ => Except.ok ()
    | part :: rest, cur =>
      if part = "." ∨ part = ".." then
        Except.error ("mkdir: invalid directory name: " ++ part)
      else
        let cur2 := cur ++ [part]
        match getNodeAtPathList root cur2 with
        | some node =>
          if rest ≠ [] ∧ node.type ≠ FSNodeType.directory then
            Except.error ("mkdir: " ++ String.intercalate "/" cur2 ++ " is not a directory")
          else go rest cur2
        | none =>
          let _ := createNode (cur2.dropLast) "directory"
          go rest cur2

end FileSystem

/-! ### src/utils/terminal.ts -/

/-- The filesystem interface of `SessionContext` in src/utils/terminal.ts:
`processCommand` receives these operations from its caller, so the
embedding takes them as a record of state transformers over an abstract
mirror state `σ`. -/
structure FSOps (σ : Type) where
  getNode : σ → List String → Option FSNode
  createFile : σ → List String → String → σ
  createDirectory : σ → List String → σ
  deleteNode : σ → List String → σ
  changeDirectory : σ → List String → σ

/-- A `TerminalHistory` entry of src/utils/terminal.ts (its nested `state`
object is flattened into the last two fields). -/
structure TerminalHistory where
  command : String
  output : String
  currentPath : List String
  files : String ⊕ List (String × FSNode)

namespace terminalStore

/-- `terminalStore.addHistory` from src/utils/terminal.ts: push the entry,
then shift the oldest one off when the length exceeds 10. -/
def addHistory (history : List TerminalHistory) (entry : TerminalHistory) :
    List TerminalHistory :=
  let pushed := history ++ [entry]
  if pushed.length > 10 then pushed.drop 1 else pushed

end terminalStore

/-- The `files` snapshot stored in a history entry:
`getNode([])?.type === 'directory' ? getNode([])?.content : \x7b\x7d`. -/
def rootFilesSnapshot {σ : Type} (ops : FSOps σ) (st : σ) :
    String ⊕ List (String × FSNode) :=
  match ops.getNode st [] with
  | some n => if n.type = FSNodeType.directory then n.content else Sum.inr []
  | none => Sum.inr []

/-- One iteration of the `createFiles` loop in `processCommand`
(src/utils/terminal.ts lines 365-376): property access on `null` throws;
an entry with a falsy `path`, a falsy `type` or a `type` other than
`'file'`/`'directory'` throws; a truthy non-string `path` throws at
`file.path.split`; otherwise the creation is applied.  A throw is an
`Except.error` carrying the mirror state mutated so far. -/
def createStep {σ : Type} (ops : FSOps σ) (st : σ) (f : JsValue) : Except σ σ :=
  if isNull f then Except.error st
  else if !(truthy (jsGet f "path")) || !(truthy (jsGet f "type")) ||
      !(typeIsFileOrDir (jsGet f "type")) then
    Except.error st
  else
    match jsGet f "path" with
    | some (JsValue.jstr p) =>
      Except.ok
        (match jsGet f "type" with
         | some (JsValue.jstr t) =>
           if t = "directory" then ops.createDirectory st (splitPath p)
           else ops.createFile st (splitPath p) (contentStr (jsGet f "content"))
         | _ => st)
    | _ => Except.error st

/-- The `createFiles` loop of `processCommand`. -/
def applyCreates {σ : Type} (ops : FSOps σ) : List JsValue → σ → Except σ σ
  | [], st => Except.ok st
  | f :: rest, st =>
    match createStep ops st f with
    | Except.error st2 => Except.error st2
    | Except.ok st2 => applyCreates ops rest st2

/-- The `deleteFiles` loop of `processCommand`: a non-string entry throws,
a string entry is deleted. -/
def applyDeletes {σ : Type} (ops : FSOps σ) : List JsValue → σ → Except σ σ
  | [], st => Except.ok st
  | d :: rest, st =>
    match d with
    | JsValue.jstr s => applyDeletes ops rest (ops.deleteNode st (splitPath s))
    | _ => Except.error st

/-- The action-processing block of `processCommand` (src/utils/terminal.ts
lines 346-388): property access on a `null` actions value throws; then the
three shape checks on `newPath`, `createFiles` and `deleteFiles` throw on
a truthy value of the wrong type; then the directory change, the creations
and the deletions are applied in that order.  `Except.error` carries the
mirror state at the moment of the throw — in the TypeScript the interface
operations already executed have mutated the caller's state in place. -/
def applyActions {σ : Type} (ops : FSOps σ) (actions : JsValue) (st : σ) : Except σ σ :=
  if isNull actions then Except.error st
  else
    if truthy (jsGet actions "newPath") && !(isStr (jsGet actions "newPath")) then
      Except.error st
    else if truthy (jsGet actions "createFiles") && !(isArr (jsGet actions "createFiles")) then
      Except.error st
    else if truthy (jsGet actions "deleteFiles") && !(isArr (jsGet actions "deleteFiles")) then
      Except.error st
    else
      let st1 :=
        if truthy (jsGet actions "newPath") then
          match jsGet actions "newPath" with
          | some (JsValue.jstr s) => ops.changeDirectory st (splitPath s)
          | _ => st
        else st
      let createsRes :=
        match jsGet actions "createFiles" with
        | some (JsValue.jarr files) => applyCreates ops files st1
        | _ => Except.ok st1
      match createsRes with
      | Except.error st2 => Except.error st2
      | Except.ok st2 =>
        match jsGet actions "deleteFiles" with
        | some (JsValue.jarr ds) => applyDeletes ops ds st2
        | _ => Except.ok st2

/-- The history entry built by `processCommand`. -/
def mkHistEntry {σ : Type} (ops : FSOps σ) (command output : String)
    (currentPath : List String) (st : σ) : TerminalHistory :=
  { command := command, output := output, currentPath := currentPath,
    files := rootFilesSnapshot ops st }

/-- The post-oracle part of `processCommand` (src/utils/terminal.ts lines
300-414), taking the oracle's raw reply text as input.  Split the reply on
`---`; fewer than 5 parts is the invalid-format error; an empty trimmed
actions segment skips the whole actions block; a JSON parse failure logs,
records history and still returns the output; otherwise the actions are
validated and applied, any throw being caught as the invalid-action error
while keeping the mutations already applied. -/
def processCommand {σ : Type} (ops : FSOps σ) (currentPath : List String)
    (command rawReply : String) (st : σ) (hist : List TerminalHistory) :
    String × σ × List TerminalHistory :=
  let parts := jsSplit rawReply "---"
  if parts.length < 5 then ("Error: Invalid command output format", st, hist)
  else
    let terminalOutput := jsTrim ((parts.get? 2).getD "")
    let actionsJson := jsTrim ((parts.get? 4).getD "")
    if actionsJson = "" then (terminalOutput, st, hist)
    else
      match parseJson actionsJson with
      | none =>
        (terminalOutput, st,
         terminalStore.addHistory hist (mkHistEntry ops command terminalOutput currentPath st))
      | some actions =>
        match applyActions ops actions st with
        | Except.error st2 => ("Error: Invalid command action format", st2, hist)
        | Except.ok st2 =>
          (terminalOutput, st2,
           terminalStore.addHistory hist (mkHistEntry ops command terminalOutput currentPath st2))

/-! ### src/utils/llm.ts -/

namespace llm

/-- The reply parsing of `sendCommandToLLM` in src/utils/llm.ts: the first
regex captures the text after the first `---output---` lazily up to the
next `---directory---` or the end — with the fallback `'No output'` when
the marker is absent — and the second regex captures the text after the
first `---directory---` to the end. -/
def parseReply (content : String) : String × Option String :=
  let output :=
    if (jsSplit content "---output---").length ≥ 2 then
      jsTrim ((jsSplit (String.intercalate "---output---"
        ((jsSplit content "---output---").drop 1)) "---directory---").headD "")
    else "No output"
  let newDirectory :=
    if (jsSplit content "---directory---").length ≥ 2 then
      some (jsTrim (String.intercalate "---directory---"
        ((jsSplit content "---directory---").drop 1)))
    else none
  (output, newDirectory)

end llm

/-! ### src/store/terminalStore.ts and src/components/Terminal.tsx -/

/-- A display `HistoryEntry` (src/types.ts): `id` is assigned by
`addToHistory`, `timestamp` is the ISO string of the creation time. -/
structure HistoryEntry where
  id : Nat
  command : String
  output : String
  directory : String
  timestamp : String

namespace useTerminalStore

/-- `addToHistory` of src/store/terminalStore.ts: append the entry with
`id := history.length + 1`.  No eviction happens here. -/
def addToHistory (history : List HistoryEntry) (command output directory timestamp : String) :
    List HistoryEntry :=
  history ++ [{ id := history.length + 1, command := command, output := output,
                directory := directory, timestamp := timestamp }]

end useTerminalStore

/-- The store state touched by `handleApiKeySubmission` in
src/components/Terminal.tsx. -/
structure UIState where
  apiKey : Option String
  history : List HistoryEntry
  isProcessing : Bool
  currentDirectory : String

/-- `handleApiKeySubmission` from src/components/Terminal.tsx.  `exec` is
the store's `executeCommand` — the only operation that reaches the network
— passed as a parameter, and `now` the ISO timestamp.  A candidate whose
trimmed length is under 10 is rejected locally: the key is cleared, a
credential-format error entry is recorded and processing ends without any
call to `exec`.  Otherwise the client is initialised, the key stored, the
masked confirmation entry recorded and the greeting command executed. -/
def handleApiKeySubmission (exec : UIState → String → UIState)
    (key : String) (st : UIState) (now : String) : UIState :=
  let st1 := { st with isProcessing := true }
  if (jsTrim key).length < 10 then
    { st1 with
      apiKey := none,
      history := useTerminalStore.addToHistory st1.history "[API Key Input]"
        "Error: Invalid API key format. Please enter a valid Anthropic API key."
        st1.currentDirectory now,
      isProcessing := false }
  else
    let st2 := { st1 with
      apiKey := some key,
      history := useTerminalStore.addToHistory st1.history "[API Key Input]"
        "API key accepted." st1.currentDirectory now }
    let st3 := exec st2 "echo \"Terminal ready. API connection established.\""
    { st3 with isProcessing := false }

/-! ### An event-trace instantiation of the filesystem interface -/

/-- One observable filesystem operation, for trace-based statements about
which actions `processCommand` applies and in which order. -/
inductive FSEvent where
  | changeDir (path : List String)
  | createFile (path : List String) (content : String)
  | createDir (path : List String)
  | deleteNode (path : List String)

/-- The logging instantiation of `FSOps`: the state is the list of
operations applied so far. -/
def logOps : FSOps (List FSEvent) where
  getNode := fun _ _ => none
  createFile := fun st p c => st ++ [FSEvent.createFile p c]
  createDirectory := fun st p => st ++ [FSEvent.createDir p]
  deleteNode := fun st p => st ++ [FSEvent.deleteNode p]
  changeDirectory := fun st p => st ++ [FSEvent.changeDir p]

/-! ### Derived forms used to state properties of the action loop -/

/-- Whether a `createFiles` entry passes every check of the loop body in
`processCommand`: not `null`, truthy `path` and `type`, `type` one of
`'file'`/`'directory'`, and `path` a string (so `file.path.split` does
not throw). -/
def entryOk (f : JsValue) : Bool :=
  if isNull f then false
  else
    truthy (jsGet f "path") && truthy (jsGet f "type") &&
      typeIsFileOrDir (jsGet f "type") && isStr (jsGet f "path")

/-- The state transformation a valid `createFiles` entry performs. -/
def createApply {σ : Type} (ops : FSOps σ) (st : σ) (f : JsValue) : σ :=
  match jsGet f "path", jsGet f "type" with
  | some (JsValue.jstr p), some (JsValue.jstr t) =>
    if t = "directory" then ops.createDirectory st (splitPath p)
    else ops.createFile st (splitPath p) (contentStr (jsGet f "content"))
  | _, _ => st

/-- Folding `createApply` left to right over a list of valid entries. -/
def applyCreatesOk {σ : Type} (ops : FSOps σ) (cs : List JsValue) (st : σ) : σ :=
  cs.foldl (createApply ops) st

/-- The state transformation a valid `deleteFiles` entry performs. -/
def deleteApply {σ : Type} (ops : FSOps σ) (st : σ) (d : JsValue) : σ :=
  match d with
  | JsValue.jstr s => ops.deleteNode st (splitPath s)
  | _ => st

/-- Folding `deleteApply` left to right over a list of valid entries. -/
def applyDeletesOk {σ : Type} (ops : FSOps σ) (ds : List JsValue) (st : σ) : σ :=
  ds.foldl (deleteApply ops) st

/-! ### Spec-side reachability relations for `getNodeAtPath` -/

/-- A path reaches a node by walking `content` mappings of directory
nodes — the resolution discipline of `getNodeAtPath` in
src/utils/system.ts, written as an inductive relation. -/
inductive ReachesContent : FSNode → List String → FSNode → Prop where
  | refl (n : FSNode) : ReachesContent n [] n
  | step (n : FSNode) (entries : List (String × FSNode)) (seg : String)
      (rest : List String) (child target : FSNode) :
      n.type = FSNodeType.directory →
      n.content = Sum.inr entries →
      lookupEntry entries seg = some child →
      ReachesContent child rest target →
      ReachesContent n (seg :: rest) target

/-- A path reaches a node by walking the optional `children` mappings —
the resolution discipline of `FileSystem.getNodeAtPath` in
src/lib/filesystem.ts (which tests only `children`, not the node type). -/
inductive ReachesChildren : FSNode → List String → FSNode → Prop where
  | refl (n : FSNode) : ReachesChildren n [] n
  | step (n : FSNode) (cs : List (String × FSNode)) (seg : String)
      (rest : List String) (child target : FSNode) :
      n.children = some cs →
      lookupEntry cs seg = some child →
      ReachesChildren child rest target →
      ReachesChildren n (seg :: rest) target

/-! ### Concrete inputs used by witnesses and counterexamples -/

/-- An oracle reply whose fifth `---`-segment is a JSON action batch whose
second `createFiles` entry lacks `type`. -/
def c1raw : String :=
  "o---o---OUT---x---\x7b\"newPath\":\"/d\",\"createFiles\":[\x7b\"path\":\"a\",\"content\":\"\",\"type\":\"file\"\x7d,\x7b\"path\":\"b\"\x7d],\"deleteFiles\":[\"z\"]\x7d"

/-- The first (valid) `createFiles` entry of `c1raw`. -/
def c1entryA : JsValue :=
  JsValue.jobj [("path", JsValue.jstr "a"), ("content", JsValue.jstr ""),
    ("type", JsValue.jstr "file")]

/-- The second (invalid, `type`-less) `createFiles` entry of `c1raw`. -/
def c1entryB : JsValue :=
  JsValue.jobj [("path", JsValue.jstr "b")]

/-- The parsed action batch of `c1raw`. -/
def c1actions : JsValue :=
  JsValue.jobj [("newPath", JsValue.jstr "/d"),
    ("createFiles", JsValue.jarr [c1entryA, c1entryB]),
    ("deleteFiles", JsValue.jarr [JsValue.jstr "z"])]

/-- A canonical-shape oracle reply that omits only the closing
`---actions---` delimiter. -/
def c2raw : String :=
  "---output---\nhi\n---output---\n---actions---\n\x7b\"newPath\": \"/tmp\"\x7d"

/-- An oracle reply whose fifth `---`-segment is non-empty but not JSON. -/
def c3raw : String := "a---b---out---c---notjson"

/-- An oracle reply with five `---`-segments whose output and actions
segments are both blank. -/
def c4raw : String := "a---b--- ---c---"

/-- An oracle reply whose fifth `---`-segment is a fully valid JSON action
batch with a directory change, two creations and one deletion. -/
def c5raw : String :=
  "o---o---OUT---x---\x7b\"newPath\":\"/d\",\"createFiles\":[\x7b\"path\":\"a\",\"type\":\"file\"\x7d,\x7b\"path\":\"b\",\"content\":\"c\",\"type\":\"directory\"\x7d],\"deleteFiles\":[\"z\"]\x7d"

/-- The two (valid) `createFiles` entries of `c5raw`. -/
def c5entryA : JsValue :=
  JsValue.jobj [("path", JsValue.jstr "a"), ("type", JsValue.jstr "file")]

/-- The second `createFiles` entry of `c5raw`, a directory creation. -/
def c5entryB : JsValue :=
  JsValue.jobj [("path", JsValue.jstr "b"), ("content", JsValue.jstr "c"),
    ("type", JsValue.jstr "directory")]

/-- The parsed action batch of `c5raw`. -/
def c5actions : JsValue :=
  JsValue.jobj [("newPath", JsValue.jstr "/d"),
    ("createFiles", JsValue.jarr [c5entryA, c5entryB]),
    ("deleteFiles", JsValue.jarr [JsValue.jstr "z"])]

/-- A directory root with empty `content` and no `children` mapping, as
any tree built by `createFSNode` has. -/
def fsEmptyRoot : FSNode := FSNode.mk FSNodeType.directory "/" (Sum.inr []) none

/-- A root whose `children` mapping holds a single file `x`. -/
def fsRootWithFileX : FSNode :=
  FSNode.mk FSNodeType.directory "/" (Sum.inr [])
    (some [("x", FSNode.mk FSNodeType.file "x" (Sum.inl "") none)])

/-- A throwaway transcript entry for the history-window witness. -/
def histEntry0 : TerminalHistory :=
  { command := "c", output := "o", currentPath := [], files := Sum.inr [] }

/-- A UI state with no credential, for the credential witness. -/
def uiState0 : UIState :=
  { apiKey := none, history := [], isProcessing := false,
    currentDirectory := "/home/user" }

/-! ### Helper lemmas -/

set_option maxRecDepth 100000

theorem createStep_ok {σ : Type} (ops : FSOps σ) (st : σ) (f : JsValue)
    (h : entryOk f = true) :
    createStep ops st f = Except.ok (createApply ops st f) := by
  by_cases hn : isNull f = true
  · simp [entryOk, hn] at h
  · simp only [Bool.not_eq_true] at hn
    simp only [entryOk, hn, Bool.false_eq_true, if_false, Bool.and_eq_true] at h
    have hp := h.1.1.1
    have ht := h.1.1.2
    have htfd := h.1.2
    have hps := h.2
    cases hpv : jsGet f "path" with
    | none => rw [hpv] at hps; simp [isStr] at hps
    | some v =>
      cases v with
      | jstr p =>
        cases htv : jsGet f "type" with
        | none => rw [htv] at htfd; simp [typeIsFileOrDir] at htfd
        | some w =>
          cases w with
          | jstr t =>
            rw [hpv] at hp hps
            rw [htv] at ht htfd
            simp [createStep, createApply, hn, hp, ht, htfd, hpv, htv]
          | jnull => rw [htv] at htfd; simp [typeIsFileOrDir] at htfd
          | jbool b => rw [htv] at htfd; simp [typeIsFileOrDir] at htfd
          | jnum l => rw [htv] at htfd; simp [typeIsFileOrDir] at htfd
          | jarr xs => rw [htv] at htfd; simp [typeIsFileOrDir] at htfd
          | jobj fs => rw [htv] at htfd; simp [typeIsFileOrDir] at htfd
      | jnull => rw [hpv] at hps; simp [isStr] at hps
      | jbool b => rw [hpv] at hps; simp [isStr] at hps
      | jnum l => rw [hpv] at hps; simp [isStr] at hps
      | jarr xs => rw [hpv] at hps; simp [isStr] at hps
      | jobj fs => rw [hpv] at hps; simp [isStr] at hps

theorem createStep_err {σ : Type} (ops : FSOps σ) (st : σ) (f : JsValue)
    (h : entryOk f = false) :
    createStep ops st f = Except.error st := by
  by_cases hn : isNull f = true
  · simp [createStep, hn]
  · simp only [Bool.not_eq_true] at hn
    simp only [entryOk, hn, Bool.false_eq_true, if_false] at h
    by_cases hc : (!truthy (jsGet f "path") || !truthy (jsGet f "type") ||
        !typeIsFileOrDir (jsGet f "type")) = true
    · simp [createStep, hn, hc]
    · simp only [Bool.or_eq_true, Bool.not_eq_true', not_or, Bool.not_eq_false] at hc
      have hp := hc.1.1
      have ht := hc.1.2
      have htfd := hc.2
      rw [hp, ht, htfd] at h
      simp only [Bool.true_and] at h
      have hps := h
      cases hpv : jsGet f "path" with
      | none => rw [hpv] at hp; simp [truthy] at hp
      | some v =>
        cases v with
        | jstr p => rw [hpv] at hps; simp [isStr] at hps
        | jnull => rw [hpv] at hp; simp [truthy] at hp
        | jbool b =>
          simp [createStep, hn, hp, ht, htfd, hpv]
        | jnum l =>
          simp [createStep, hn, hp, ht, htfd, hpv]
        | jarr xs =>
          simp [createStep, hn, hp, ht, htfd, hpv]
        | jobj fs =>
          simp [createStep, hn, hp, ht, htfd, hpv]

theorem applyCreates_all_ok {σ : Type} (ops : FSOps σ) (cs : List JsValue)
    (st : σ) (h : cs.all entryOk = true) :
    applyCreates ops cs st = Except.ok (applyCreatesOk ops cs st) := by
  induction cs generalizing st with
  | nil => rfl
  | cons c rest ih =>
    simp only [List.all_cons, Bool.and_eq_true] at h
    simp only [applyCreates, createStep_ok ops st c h.1, applyCreatesOk, List.foldl_cons]
    exact ih (createApply ops st c) h.2

theorem applyCreates_stops {σ : Type} (ops : FSOps σ) (cs1 : List JsValue)
    (bad : JsValue) (cs2 : List JsValue) (st : σ)
    (h1 : cs1.all entryOk = true) (hbad : entryOk bad = false) :
    applyCreates ops (cs1 ++ bad :: cs2) st =
      Except.error (applyCreatesOk ops cs1 st) := by
  induction cs1 generalizing st with
  | nil =>
    simp only [List.nil_append, applyCreates, createStep_err ops st bad hbad]
    rfl
  | cons c rest ih =>
    simp only [List.all_cons, Bool.and_eq_true] at h1
    simp only [List.cons_append, applyCreates, createStep_ok ops st c h1.1,
      applyCreatesOk, List.foldl_cons]
    exact ih (createApply ops st c) h1.2

theorem applyDeletes_all_ok {σ : Type} (ops : FSOps σ) (ds : List JsValue)
    (st : σ) (h : ds.all isStrV = true) :
    applyDeletes ops ds st = Except.ok (applyDeletesOk ops ds st) := by
  induction ds generalizing st with
  | nil => rfl
  | cons d rest ih =>
    simp only [List.all_cons, Bool.and_eq_true] at h
    cases d with
    | jstr s =>
      simp only [applyDeletes, applyDeletesOk, List.foldl_cons, deleteApply]
      exact ih (ops.deleteNode st (splitPath s)) h.2
    | jnull => simp [isStrV] at h
    | jbool b => simp [isStrV] at h
    | jnum l => simp [isStrV] at h
    | jarr xs => simp [isStrV] at h
    | jobj fs => simp [isStrV] at h

theorem isNull_false_of_get {actions : JsValue} {key : String} {v : JsValue}
    (h : jsGet actions key = some v) : isNull actions = false := by
  cases actions with
  | jobj fields => rfl
  | jnull => simp [jsGet] at h
  | jbool b => simp [jsGet] at h
  | jnum l => simp [jsGet] at h
  | jstr s => simp [jsGet] at h
  | jarr xs => simp [jsGet] at h

theorem applyActions_ok_of {σ : Type} (ops : FSOps σ) (actions : JsValue)
    (st : σ) (np : String) (cs ds : List JsValue)
    (hnp : jsGet actions "newPath" = some (JsValue.jstr np)) (hnp2 : np ≠ "")
    (hcf : jsGet actions "createFiles" = some (JsValue.jarr cs))
    (hdf : jsGet actions "deleteFiles" = some (JsValue.jarr ds))
    (hcs : cs.all entryOk = true) (hds : ds.all isStrV = true) :
    applyActions ops actions st =
      Except.ok (applyDeletesOk ops ds
        (applyCreatesOk ops cs (ops.changeDirectory st (splitPath np)))) := by
  have hn := isNull_false_of_get hnp
  have hnptruthy : truthy (jsGet actions "newPath") = true := by
    rw [hnp]; simp [truthy, hnp2]
  have h2 : truthy (some (JsValue.jstr np)) = true := by simp [truthy, hnp2]
  simp only [applyActions, hn, Bool.false_eq_true, if_false, hnp, hcf, hdf,
    hnptruthy, isStr, isArr, Bool.not_true, Bool.and_false, Bool.true_and,
    Bool.false_eq_true, if_false, h2, if_true]
  rw [applyCreates_all_ok ops cs _ hcs]
  simp only [applyDeletes_all_ok ops ds
    (applyCreatesOk ops cs (ops.changeDirectory st (splitPath np))) hds]

theorem applyActions_stops_of {σ : Type} (ops : FSOps σ) (actions : JsValue)
    (st : σ) (np : String) (cs1 : List JsValue) (bad : JsValue)
    (cs2 ds : List JsValue)
    (hnp : jsGet actions "newPath" = some (JsValue.jstr np)) (hnp2 : np ≠ "")
    (hcf : jsGet actions "createFiles" = some (JsValue.jarr (cs1 ++ bad :: cs2)))
    (hdf : jsGet actions "deleteFiles" = some (JsValue.jarr ds))
    (hcs1 : cs1.all entryOk = true) (hbad : entryOk bad = false) :
    applyActions ops actions st =
      Except.error (applyCreatesOk ops cs1 (ops.changeDirectory st (splitPath np))) := by
  have hn := isNull_false_of_get hnp
  have hnptruthy : truthy (jsGet actions "newPath") = true := by
    rw [hnp]; simp [truthy, hnp2]
  have h2 : truthy (some (JsValue.jstr np)) = true := by simp [truthy, hnp2]
  simp only [applyActions, hn, Bool.false_eq_true, if_false, hnp, hcf, hdf,
    hnptruthy, isStr, isArr, Bool.not_true, Bool.and_false, Bool.true_and,
    Bool.false_eq_true, if_false, h2, if_true]
  rw [applyCreates_stops ops cs1 bad cs2 _ hcs1 hbad]

theorem processCommand_parsed {σ : Type} (ops : FSOps σ) (cp : List String)
    (cmd raw : String) (st : σ) (hist : List TerminalHistory) (actions : JsValue)
    (h5 : ¬ (jsSplit raw "---").length < 5)
    (hne : jsTrim (((jsSplit raw "---").get? 4).getD "") ≠ "")
    (hparse : parseJson (jsTrim (((jsSplit raw "---").get? 4).getD "")) = some actions) :
    processCommand ops cp cmd raw st hist =
      (match applyActions ops actions st with
       | Except.error st2 => ("Error: Invalid command action format", st2, hist)
       | Except.ok st2 =>
         (jsTrim (((jsSplit raw "---").get? 2).getD ""), st2,
          terminalStore.addHistory hist
            (mkHistEntry ops cmd (jsTrim (((jsSplit raw "---").get? 2).getD "")) cp st2))) := by
  simp only [processCommand, if_neg h5, if_neg hne, hparse]

theorem addHistory_foldl (acc : List TerminalHistory) (es : List TerminalHistory)
    (h : acc.length ≤ 10) :
    List.foldl terminalStore.addHistory acc es =
      (acc ++ es).drop ((acc ++ es).length - 10) := by
  induction es generalizing acc with
  | nil =>
    simp only [List.foldl_nil, List.append_nil]
    rw [Nat.sub_eq_zero_of_le h, List.drop_zero]
  | cons e rest ih =>
    simp only [List.foldl_cons]
    by_cases hl : (acc ++ [e]).length > 10
    · have hlen : acc.length = 10 := by
        simp only [List.length_append, List.length_singleton] at hl
        omega
      have hstep : terminalStore.addHistory acc e = (acc ++ [e]).drop 1 := by
        simp only [terminalStore.addHistory, if_pos hl]
      rw [hstep, ih ((acc ++ [e]).drop 1) (by simp [List.length_drop, hlen])]
      have hle1 : 1 ≤ (acc ++ [e]).length := by
        simp only [List.length_append, List.length_singleton]
        omega
      have hda : (acc ++ [e]).drop 1 ++ rest = (acc ++ e :: rest).drop 1 := by
        rw [show acc ++ e :: rest = (acc ++ [e]) ++ rest by simp,
          List.drop_append_of_le_length hle1]
      rw [hda, List.drop_drop]
      congr 1
      simp only [List.length_drop, List.length_append, List.length_cons,
        List.length_singleton, hlen]
      omega
    · have hstep : terminalStore.addHistory acc e = acc ++ [e] := by
        simp only [terminalStore.addHistory, if_neg hl]
      rw [hstep, ih (acc ++ [e]) (by omega)]
      have hassoc : (acc ++ [e]) ++ rest = acc ++ e :: rest := by simp
      rw [hassoc]

theorem sys_resolve_dotdot (p : List String) : system.resolvePath p ".." = p.dropLast := rfl

theorem fs_resolve_dotdot (p : List String) : FileSystem.resolvePath p ".." = p.dropLast := rfl

theorem sys_resolve_plain (q : List String) (seg : String)
    (h0 : jsStartsWith seg "/" = false) (h1 : seg ≠ ".") (h2 : seg ≠ "")
    (h3 : seg ≠ "..") (h4 : seg ≠ "~") (h5 : jsStartsWith seg "~/" = false)
    (h6 : (jsSplit seg "/").filter (fun t => t ≠ "") = [seg]) :
    system.resolvePath q seg = q ++ [seg] := by
  simp only [ne_eq, decide_not] at h6
  simp [system.resolvePath, h0, h1, h2, h3, h4, h5, h6]

theorem fs_resolve_plain (q : List String) (seg : String)
    (h0 : jsStartsWith seg "/" = false) (h1 : seg ≠ ".") (h2 : seg ≠ "")
    (h3 : seg ≠ "..")
    (h6 : (jsSplit seg "/").filter (fun t => t ≠ "") = [seg]) :
    FileSystem.resolvePath q seg = q ++ [seg] := by
  simp only [ne_eq, decide_not] at h6
  simp [FileSystem.resolvePath, h0, h1, h2, h3, h6]

theorem getNodeAtPath_iff_reaches (root : FSNode) (path : List String) (target : FSNode) :
    system.getNodeAtPath root path = some target ↔ ReachesContent root path target := by
  induction path generalizing root with
  | nil =>
    constructor
    · intro h
      simp only [system.getNodeAtPath, Option.some_inj] at h
      rw [h]
      exact ReachesContent.refl target
    · intro h
      cases h
      rfl
  | cons seg rest ih =>
    cases root with
    | mk t nm c ch =>
      constructor
      · intro h
        cases t with
        | directory =>
          cases c with
          | inr entries =>
            simp only [system.getNodeAtPath, FSNode.type, FSNode.content] at h
            cases hle : lookupEntry entries seg with
            | some child =>
              rw [hle] at h
              exact ReachesContent.step _ entries seg rest child target rfl rfl hle
                ((ih child).mp h)
            | none => rw [hle] at h; cases h
          | inl sc => simp [system.getNodeAtPath, FSNode.type, FSNode.content] at h
        | file => simp [system.getNodeAtPath, FSNode.type, FSNode.content] at h
        | symlink => simp [system.getNodeAtPath, FSNode.type, FSNode.content] at h
      · intro h
        cases h with
        | step _ entries _ _ child _ htc hcc hle hrec =>
          simp only [FSNode.type] at htc
          simp only [FSNode.content] at hcc
          subst htc
          subst hcc
          simp only [system.getNodeAtPath, FSNode.type, FSNode.content, hle]
          exact (ih child).mpr hrec

theorem getNodeAtPathList_iff_reaches (root : FSNode) (path : List String) (target : FSNode) :
    FileSystem.getNodeAtPathList root path = some target ↔ ReachesChildren root path target := by
  induction path generalizing root with
  | nil =>
    constructor
    · intro h
      simp only [FileSystem.getNodeAtPathList, Option.some_inj] at h
      rw [h]
      exact ReachesChildren.refl target
    · intro h
      cases h
      rfl
  | cons seg rest ih =>
    cases root with
    | mk t nm c ch =>
      constructor
      · intro h
        cases ch with
        | some cs =>
          simp only [FileSystem.getNodeAtPathList, FSNode.children] at h
          cases hle : lookupEntry cs seg with
          | some child =>
            rw [hle] at h
            exact ReachesChildren.step _ cs seg rest child target rfl hle ((ih child).mp h)
          | none => rw [hle] at h; cases h
        | none => simp [FileSystem.getNodeAtPathList, FSNode.children] at h
      · intro h
        cases h with
        | step _ cs _ _ child _ hch hle hrec =>
          simp only [FSNode.children] at hch
          subst hch
          simp only [FileSystem.getNodeAtPathList, FSNode.children, hle]
          exact (ih child).mpr hrec

/-- C1 (corrected).  The claim says a batch containing an invalid
`createFiles` entry is applied all-or-nothing (none of its actions take
effect) while the output text is still returned.  What the code does —
proved here — is stop at the first invalid entry: the `newPath` directory
change and every creation listed before the invalid entry have already
been applied when the loop throws, nothing after it is applied, and the
caller receives the string `Error: Invalid command action format` instead
of the parsed output text. -/
theorem c1_first_invalid_entry_stops_batch {σ : Type} (ops : FSOps σ)
    (cp : List String) (cmd raw : String) (st : σ) (hist : List TerminalHistory)
    (actions : JsValue) (np : String) (cs1 : List JsValue) (bad : JsValue)
    (cs2 ds : List JsValue)
    (h5 : ¬ (jsSplit raw "---").length < 5)
    (hne : jsTrim (((jsSplit raw "---").get? 4).getD "") ≠ "")
    (hparse : parseJson (jsTrim (((jsSplit raw "---").get? 4).getD "")) = some actions)
    (hnp : jsGet actions "newPath" = some (JsValue.jstr np)) (hnp2 : np ≠ "")
    (hcf : jsGet actions "createFiles" = some (JsValue.jarr (cs1 ++ bad :: cs2)))
    (hdf : jsGet actions "deleteFiles" = some (JsValue.jarr ds))
    (hcs1 : cs1.all entryOk = true) (hbad : entryOk bad = false) :
    processCommand ops cp cmd raw st hist =
      ("Error: Invalid command action format",
       applyCreatesOk ops cs1 (ops.changeDirectory st (splitPath np)), hist) := by
  rw [processCommand_parsed ops cp cmd raw st hist actions h5 hne hparse,
    applyActions_stops_of ops actions st np cs1 bad cs2 ds hnp hnp2 hcf hdf hcs1 hbad]

/-- C1 counterexample: a concrete reply whose parsed batch is
`newPath "/d"`, a valid creation of `a`, then an entry lacking `type`.
`processCommand` applies the directory change and the first creation
(the event trace is non-empty, refuting all-or-nothing) and returns the
action-format error, not the parsed output text `OUT`. -/
theorem c1_counterexample :
    processCommand logOps ["h"] "cmd" c1raw [] [] =
      ("Error: Invalid command action format",
       [FSEvent.changeDir ["d"], FSEvent.createFile ["a"] ""], []) ∧
    jsTrim (((jsSplit c1raw "---").get? 2).getD "") = "OUT" ∧
    ("Error: Invalid command action format" : String) ≠ "OUT" :=
  ⟨rfl, rfl, by decide⟩

/-- C1 witness: the amended theorem instantiated at the concrete reply
`c1raw`. -/
theorem c1_witness :
    processCommand logOps ["h"] "cmd" c1raw [] [] =
      ("Error: Invalid command action format",
       applyCreatesOk logOps [c1entryA] (logOps.changeDirectory [] (splitPath "/d")),
       []) :=
  c1_first_invalid_entry_stops_batch logOps ["h"] "cmd" c1raw [] [] c1actions "/d"
    [c1entryA] c1entryB [] [JsValue.jstr "z"] (by decide) (by decide) rfl rfl
    (by decide) rfl rfl rfl rfl

/-- C2 (corrected, main clause).  A raw reply whose split on `---`
yields fewer than 5 segments makes `processCommand` return the generic
invalid-format message with the mirror and history unchanged. -/
theorem c2_few_segments_format_error {σ : Type} (ops : FSOps σ) (cp : List String)
    (cmd raw : String) (st : σ) (hist : List TerminalHistory)
    (h : (jsSplit raw "---").length < 5) :
    processCommand ops cp cmd raw st hist =
      ("Error: Invalid command output format", st, hist) := by
  simp only [processCommand, if_pos h]

/-- C2 counterexample: the claim also asserts that a reply lacking the
closing `---actions---` delimiter falls in the fewer-than-5-segments
FormatError class.  It does not: `c2raw` omits exactly that delimiter,
splits into 7 segments, and `processCommand` returns the parsed output
`hi` (its actions segment trims to empty, so actions are skipped) rather
than the invalid-format message. -/
theorem c2_counterexample :
    (jsSplit c2raw "---").length = 7 ∧
    processCommand logOps ["h"] "cmd" c2raw [] [] = ("hi", [], []) ∧
    ("hi" : String) ≠ "Error: Invalid command output format" :=
  ⟨rfl, rfl, by decide⟩

/-- C2 witness: the amended theorem instantiated at a two-segment
reply. -/
theorem c2_witness :
    processCommand logOps [] "c" "a---b" [] [] =
      ("Error: Invalid command output format", [], []) :=
  c2_few_segments_format_error logOps [] "c" "a---b" [] [] (by decide)

/-- C3 (confirmed).  When the actions segment is present and non-empty
but `JSON.parse` fails on it, `processCommand` still returns the trimmed
output-block text, the mirror state is returned unchanged (no create,
delete or directory change is applied), and a history entry is recorded
with the pre-call snapshot. -/
theorem c3_malformed_actions_keeps_output_and_mirror {σ : Type} (ops : FSOps σ)
    (cp : List String) (cmd raw : String) (st : σ) (hist : List TerminalHistory)
    (h5 : ¬ (jsSplit raw "---").length < 5)
    (hne : jsTrim (((jsSplit raw "---").get? 4).getD "") ≠ "")
    (hparse : parseJson (jsTrim (((jsSplit raw "---").get? 4).getD "")) = none) :
    processCommand ops cp cmd raw st hist =
      (jsTrim (((jsSplit raw "---").get? 2).getD ""), st,
       terminalStore.addHistory hist
         (mkHistEntry ops cmd (jsTrim (((jsSplit raw "---").get? 2).getD "")) cp st)) := by
  simp only [processCommand, if_neg h5, if_neg hne, hparse]

/-- C3 witness: the theorem instantiated at a reply whose actions
segment is `notjson`, over the event-trace filesystem: the trace stays
empty. -/
theorem c3_witness :
    processCommand logOps ["h"] "cmd" c3raw [] [] =
      ("out", [],
       [{ command := "cmd", output := "out", currentPath := ["h"],
          files := Sum.inr [] }]) :=
  c3_malformed_actions_keeps_output_and_mirror logOps ["h"] "cmd" c3raw [] []
    (by decide) (by decide) rfl

/-- C4 (corrected).  In `processCommand` (the canonical grammar) the
parsed output is the trimmed third segment and defaults to the empty
string — proved here for a reply whose output segment is blank.  But the
claim also covers the parser of `sendCommandToLLM`, and that variant
substitutes the placeholder `No output` whenever the `---output---`
marker is absent, so the claim that no placeholder is ever fabricated is
false. -/
theorem c4_output_default_and_variant_placeholder {σ : Type} (ops : FSOps σ)
    (cp : List String) (cmd raw : String) (st : σ) (hist : List TerminalHistory)
    (content : String)
    (h5 : ¬ (jsSplit raw "---").length < 5)
    (hout : jsTrim (((jsSplit raw "---").get? 2).getD "") = "")
    (hact : jsTrim (((jsSplit raw "---").get? 4).getD "") = "")
    (hm : ¬ (jsSplit content "---output---").length ≥ 2) :
    processCommand ops cp cmd raw st hist = ("", st, hist) ∧
    (llm.parseReply content).1 = "No output" := by
  constructor
  · simp only [processCommand, if_neg h5, if_pos hact, hout]
  · simp only [llm.parseReply, if_neg hm]

/-- C4 counterexample: on a reply without any `---output---` marker the
`sendCommandToLLM` parser produces the fabricated placeholder
`No output`, not the empty string. -/
theorem c4_counterexample :
    llm.parseReply "hello" = ("No output", none) ∧ ("No output" : String) ≠ "" :=
  ⟨rfl, by decide⟩

/-- C4 witness: the amended theorem instantiated at a blank-output
reply and the marker-less content `hello`. -/
theorem c4_witness :
    processCommand logOps [] "c" c4raw [] [] = ("", [], []) ∧
    (llm.parseReply "hello").1 = "No output" :=
  c4_output_default_and_variant_placeholder logOps [] "c" c4raw [] [] "hello"
    (by decide) rfl rfl (by decide)

/-- C5 (confirmed).  For a validated action batch (string `newPath`,
`createFiles` entries that all pass validation, string `deleteFiles`
entries), `processCommand` applies the directory change first, then the
creations in listed order, then the deletions in listed order: the
resulting state is the deletion fold applied to the creation fold applied
to the directory change. -/
theorem c5_actions_applied_in_fixed_order {σ : Type} (ops : FSOps σ)
    (cp : List String) (cmd raw : String) (st : σ) (hist : List TerminalHistory)
    (actions : JsValue) (np : String) (cs ds : List JsValue)
    (h5 : ¬ (jsSplit raw "---").length < 5)
    (hne : jsTrim (((jsSplit raw "---").get? 4).getD "") ≠ "")
    (hparse : parseJson (jsTrim (((jsSplit raw "---").get? 4).getD "")) = some actions)
    (hnp : jsGet actions "newPath" = some (JsValue.jstr np)) (hnp2 : np ≠ "")
    (hcf : jsGet actions "createFiles" = some (JsValue.jarr cs))
    (hdf : jsGet actions "deleteFiles" = some (JsValue.jarr ds))
    (hcs : cs.all entryOk = true) (hds : ds.all isStrV = true) :
    processCommand ops cp cmd raw st hist =
      (jsTrim (((jsSplit raw "---").get? 2).getD ""),
       applyDeletesOk ops ds
         (applyCreatesOk ops cs (ops.changeDirectory st (splitPath np))),
       terminalStore.addHistory hist
         (mkHistEntry ops cmd (jsTrim (((jsSplit raw "---").get? 2).getD "")) cp
           (applyDeletesOk ops ds
             (applyCreatesOk ops cs (ops.changeDirectory st (splitPath np)))))) := by
  rw [processCommand_parsed ops cp cmd raw st hist actions h5 hne hparse,
    applyActions_ok_of ops actions st np cs ds hnp hnp2 hcf hdf hcs hds]

/-- C5 witness: the theorem instantiated over the event-trace
filesystem; the trace shows the fixed order — directory change, the two
creations in listed order, then the deletion. -/
theorem c5_witness :
    processCommand logOps ["h"] "cmd" c5raw [] [] =
      ("OUT",
       [FSEvent.changeDir ["d"], FSEvent.createFile ["a"] "",
        FSEvent.createDir ["b"], FSEvent.deleteNode ["z"]],
       [{ command := "cmd", output := "OUT", currentPath := ["h"],
          files := Sum.inr [] }]) :=
  c5_actions_applied_in_fixed_order logOps ["h"] "cmd" c5raw [] [] c5actions "/d"
    [c5entryA, c5entryB] [JsValue.jstr "z"] (by decide) (by decide) rfl rfl
    (by decide) rfl rfl rfl rfl

/-- C6 (code bug).  The claim: `makeDirectory` with `mkdir -p`
semantics creates each missing ancestor so that afterwards every segment
of the requested path exists as a directory, and signals a conflict when
an intermediate segment exists as a non-directory.  The conflict half
holds (last conjunct), but creation never happens: `createNode`, the only
write path, merely logs, so `makeDirectory "a/b"` on a fresh root
succeeds while neither `a` nor `a/b` exists afterwards. -/
theorem c6_makeDirectory_creates_nothing :
    FileSystem.makeDirectory fsEmptyRoot [] "a/b" = Except.ok () ∧
    FileSystem.getNodeAtPathList fsEmptyRoot ["a"] = none ∧
    FileSystem.getNodeAtPathList fsEmptyRoot ["a", "b"] = none ∧
    FileSystem.makeDirectory fsRootWithFileX [] "x/y" =
      Except.error "mkdir: x is not a directory" :=
  ⟨rfl, rfl, rfl, rfl⟩

/-- C7 (confirmed).  Folding any sequence of appends through
`terminalStore.addHistory` keeps the transcript at no more than the
10-entry window, and once more than 10 entries have been appended the
retained entries are exactly the most recent 10 in their original order
(`List.drop` of the oldest). -/
theorem c7_transcript_window (es : List TerminalHistory) :
    (List.foldl terminalStore.addHistory [] es).length ≤ 10 ∧
    (10 < es.length →
      List.foldl terminalStore.addHistory [] es = es.drop (es.length - 10)) := by
  have h := addHistory_foldl [] es (by simp)
  simp only [List.nil_append] at h
  constructor
  · rw [h]
    simp only [List.length_drop]
    omega
  · intro _
    exact h

/-- C7 witness: eleven identical appends retain the last ten. -/
theorem c7_witness :
    10 < (List.replicate 11 histEntry0).length ∧
    List.foldl terminalStore.addHistory [] (List.replicate 11 histEntry0) =
      (List.replicate 11 histEntry0).drop ((List.replicate 11 histEntry0).length - 10) :=
  ⟨by simp, (c7_transcript_window (List.replicate 11 histEntry0)).2 (by simp)⟩

/-- C8 (corrected, amended form).  For a non-root path whose last
segment is a plain name — non-empty, not `.`, `..` or `~`, not starting
with `/` or `~/`, and containing no `/` separator (`h6`) — resolving
`..` and then the former last segment returns the original path, in both
resolver implementations; and resolving `..` at the root is a no-op in
both. -/
theorem c8_round_trip_plain_last_segment (p : List String) (hp : p ≠ [])
    (h0 : jsStartsWith (p.getLast hp) "/" = false)
    (h1 : p.getLast hp ≠ ".") (h2 : p.getLast hp ≠ "")
    (h3 : p.getLast hp ≠ "..") (h4 : p.getLast hp ≠ "~")
    (h5 : jsStartsWith (p.getLast hp) "~/" = false)
    (h6 : (jsSplit (p.getLast hp) "/").filter (fun t => t ≠ "") = [p.getLast hp]) :
    system.resolvePath (system.resolvePath p "..") (p.getLast hp) = p ∧
    FileSystem.resolvePath (FileSystem.resolvePath p "..") (p.getLast hp) = p ∧
    system.resolvePath [] ".." = [] ∧
    FileSystem.resolvePath [] ".." = [] := by
  refine ⟨?_, ?_, rfl, rfl⟩
  · rw [sys_resolve_dotdot, sys_resolve_plain _ _ h0 h1 h2 h3 h4 h5 h6,
      List.dropLast_append_getLast hp]
  · rw [fs_resolve_dotdot, fs_resolve_plain _ _ h0 h1 h2 h3 h6,
      List.dropLast_append_getLast hp]

/-- C8 counterexample: the claim quantifies over every non-root path,
but the resolver itself can produce paths with `.` segments (its absolute
branch does not normalise them, first conjunct), and on `["."]` the round
trip returns root, not `["."]`. -/
theorem c8_counterexample :
    system.resolvePath [] "/." = ["."] ∧
    system.resolvePath (system.resolvePath ["."] "..") "." ≠ ["."] :=
  ⟨rfl, by decide⟩

/-- C8 witness: the round trip at `["home", "user"]`. -/
theorem c8_witness :
    system.resolvePath (system.resolvePath ["home", "user"] "..") "user" = ["home", "user"] ∧
    FileSystem.resolvePath (FileSystem.resolvePath ["home", "user"] "..") "user" =
      ["home", "user"] ∧
    system.resolvePath [] ".." = [] ∧
    FileSystem.resolvePath [] ".." = [] :=
  c8_round_trip_plain_last_segment ["home", "user"] (by decide) (by decide) (by decide)
    (by decide) (by decide) (by decide) (by decide) (by decide)

/-- C9 (confirmed).  A credential candidate whose trimmed length is
below the fixed minimum 10 is rejected purely locally: for every possible
`executeCommand` implementation the resulting state is exactly the local
update — no key stored (`apiKey = none`, so the session still awaits a
credential), one credential-format error entry appended, processing
cleared — and the network-reaching `exec` is never consulted. -/
theorem c9_short_key_rejected_locally (exec : UIState → String → UIState)
    (key : String) (st : UIState) (now : String)
    (h : (jsTrim key).length < 10) :
    handleApiKeySubmission exec key st now =
      { st with
        apiKey := none,
        history := useTerminalStore.addToHistory st.history "[API Key Input]"
          "Error: Invalid API key format. Please enter a valid Anthropic API key."
          st.currentDirectory now,
        isProcessing := false } := by
  simp only [handleApiKeySubmission, if_pos h]

/-- C9 witness: the theorem at the concrete candidate `short`. -/
theorem c9_witness :
    handleApiKeySubmission (fun s _ => s) "short" uiState0 "t" =
      { apiKey := none,
        history := [{ id := 1, command := "[API Key Input]",
                      output := "Error: Invalid API key format. Please enter a valid Anthropic API key.",
                      directory := "/home/user", timestamp := "t" }],
        isProcessing := false,
        currentDirectory := "/home/user" } :=
  c9_short_key_rejected_locally (fun s _ => s) "short" uiState0 "t" (by decide)

/-- C10 (confirmed).  Both `getNodeAtPath` walkers are total functions
into `Option`: they return `some` exactly on paths every segment of which
resolves through the node mappings (directory `content` entries for the
src/utils/system.ts walker, the optional `children` mapping for the
src/lib/filesystem.ts walker, written as inductive reachability
relations), and they return `none` — never an exception — exactly when no
node is reachable, i.e. when a segment is missing or an intermediate node
cannot be descended. -/
theorem c10_getNodeAtPath_total (root : FSNode) (path : List String) (target : FSNode) :
    (system.getNodeAtPath root path = some target ↔ ReachesContent root path target) ∧
    (FileSystem.getNodeAtPathList root path = some target ↔
      ReachesChildren root path target) ∧
    (system.getNodeAtPath root path = none ↔ ¬ ∃ n, ReachesContent root path n) ∧
    (FileSystem.getNodeAtPathList root path = none ↔
      ¬ ∃ n, ReachesChildren root path n) := by
  refine ⟨getNodeAtPath_iff_reaches root path target,
    getNodeAtPathList_iff_reaches root path target, ⟨?_, ?_⟩, ⟨?_, ?_⟩⟩
  · intro hnone hex
    obtain ⟨n, hr⟩ := hex
    have h := (getNodeAtPath_iff_reaches root path n).mpr hr
    rw [hnone] at h
    cases h
  · intro hnex
    cases ho : system.getNodeAtPath root path with
    | none => rfl
    | some v => exact absurd ⟨v, (getNodeAtPath_iff_reaches root path v).mp ho⟩ hnex
  · intro hnone hex
    obtain ⟨n, hr⟩ := hex
    have h := (getNodeAtPathList_iff_reaches root path n).mpr hr
    rw [hnone] at h
    cases h
  · intro hnex
    cases ho : FileSystem.getNodeAtPathList root path with
    | none => rfl
    | some v => exact absurd ⟨v, (getNodeAtPathList_iff_reaches root path v).mp ho⟩ hnex
